import Mathlib

/-!
Verification of the pricing core of a BTC binary-contract quoting bot.

The development shallowly embeds the pricing engine:
* `mc_sma_pricer.py` / `garch_quote_engine.py` — GARCH(1,1) path simulation,
  trailing-window settlement statistic, empirical probabilities, bid/ask
  construction, batch quoting at perturbed horizons;
* `volatility.py` — the multi-window volatility facade;
* `black_scholes.py` — the analytic digital pricer with a ±3σ volatility band.

Rational arithmetic (`ℚ`) is used where the source performs only field
operations and comparisons; the simulator and the analytic pricer, which use
`sqrt`/`exp`/`log`/`erf`, are embedded over `ℝ`.  Randomness is made explicit:
the standard-normal innovations drawn by `np.random` are passed in as inputs.
-/

namespace BtcBot

/-! ## Parameter loading (`garch_quote_engine.load_garch_params`) -/

/-- The parsed content of `~/latest_garch.json`: the three GARCH parameters.
File reading and JSON parsing are external; the record models a file that was
read and parsed successfully. -/
structure GarchJson where
  omega : ℚ
  alpha : ℚ
  beta  : ℚ
deriving DecidableEq

/-- `load_garch_params` (garch_quote_engine.py lines 20–24): returns
`(omega, alpha, beta)` as read; it raises only when the file is missing or
unparsable (modelled away by taking the parsed `GarchJson` as input).  No
validation of the parameters is performed. -/
def load_garch_params (g : GarchJson) : Except String (ℚ × ℚ × ℚ) :=
  Except.ok (g.omega, g.alpha, g.beta)

/-! ## GARCH(1,1) variance recursion (`_simulate_sma`, `_simulate_garch_avg`) -/

/-- The variance-floor epsilon `1e-10` used by both simulators. -/
def VAR_EPS : ℚ := 1 / 10 ^ 10

/-- One GARCH(1,1) variance update, mc_sma_pricer.py lines 31–32
(`variances = omega + alpha * sq_ret + beta * variances` followed by
`np.maximum(variances, 1e-10)`), stated over any linear ordered field so the
same definition serves the `ℚ`-level statements and the `ℝ`-level simulator. -/
def nextVariance {K : Type} [LinearOrderedField K] (omega alpha beta v r2 : K) : K :=
  max (omega + alpha * r2 + beta * v) (1 / 10 ^ 10)

/-- The unconditional variance `omega / (1 - alpha - beta)`
(mc_sma_pricer.py line 22, garch_quote_engine.py line 35). -/
def uncondVar {K : Type} [Field K] (omega alpha beta : K) : K :=
  omega / (1 - alpha - beta)

/-! ## Path simulation (`_simulate_sma` loop, mc_sma_pricer.py lines 23–35) -/

/-- Per-path simulation state: current price, current variance and the previous
squared return, the three per-path scalars threaded through the loop. -/
structure SimState where
  price : ℝ
  variance : ℝ
  sqRet : ℝ

/-- One iteration of the simulation loop (mc_sma_pricer.py lines 30–35) for a
single path, with the standard-normal innovation `z` supplied explicitly. -/
noncomputable def garchStep (omega alpha beta : ℝ) (s : SimState) (z : ℝ) : SimState :=
  let v := nextVariance omega alpha beta s.variance s.sqRet
  let ret := Real.sqrt v * z
  { price := s.price * Real.exp ret, variance := v, sqRet := ret * ret }

/-- Fresh-path initial state (mc_sma_pricer.py lines 22–27): price `initial_price`,
variance and squared return both set to the unconditional variance. -/
noncomputable def initState (omega alpha beta initial_price : ℝ) : SimState :=
  { price := initial_price
    variance := uncondVar omega alpha beta
    sqRet := uncondVar omega alpha beta }

/-- Price trajectory of one path from state `s` through the innovations `zs`:
the list `[prices[t], prices[t+1], ...]` recorded by the loop. -/
noncomputable def pathFrom (omega alpha beta : ℝ) : SimState → List ℝ → List ℝ
  | s, [] => [s.price]
  | s, z :: zs => s.price :: pathFrom omega alpha beta (garchStep omega alpha beta s z) zs

/-- Full price trajectory of one path (length `T + 1` for `T` innovations). -/
noncomputable def simulatePath (omega alpha beta initial_price : ℝ) (zs : List ℝ) : List ℝ :=
  pathFrom omega alpha beta (initState omega alpha beta initial_price) zs

/-- The variances actually used to draw the log-returns along one path: the
post-floor value produced by each loop iteration. -/
noncomputable def pathVariances (omega alpha beta : ℝ) : SimState → List ℝ → List ℝ
  | _, [] => []
  | s, z :: zs =>
    (garchStep omega alpha beta s z).variance ::
      pathVariances omega alpha beta (garchStep omega alpha beta s z) zs

/-! ## Settlement statistic (mc_sma_pricer.py lines 36–37) -/

/-- Arithmetic mean of a list of reals (`ndarray.mean`). -/
noncomputable def listMean (l : List ℝ) : ℝ := l.sum / l.length

/-- `win0 = max(0, T - 59); prices[win0 : T + 1].mean(axis=0)` applied to one
path's trajectory: the mean over the trailing window.  Note `T - 59` is
truncated natural subtraction, exactly `max(0, T - 59)`. -/
noncomputable def settlementStat (ps : List ℝ) (T : ℕ) : ℝ :=
  listMean ((ps.take (T + 1)).drop (T - 59))

/-- The last `n` elements of a list (used to state the window property). -/
def lastN {α : Type} (n : ℕ) (l : List α) : List α := l.drop (l.length - n)

/-- `_simulate_sma` with an explicit (possibly negative) horizon, per path:
`np.empty((T + 1, paths))` rejects a negative row count (`ValueError`), and for
`T = -1` the write `prices[0] = initial_price` fails (`IndexError`); both are
modelled as an error result.  For `T ≥ 0` each path's settlement statistic is
the trailing-window mean of its simulated trajectory; `zss` carries one
innovation list per path. -/
noncomputable def smaSample (spot : ℝ) (T : ℤ) (omega alpha beta : ℝ)
    (zss : List (List ℝ)) : Except String (List ℝ) :=
  if T < 0 then Except.error "negative horizon"
  else Except.ok (zss.map fun zs =>
    settlementStat (simulatePath omega alpha beta spot (zs.take T.toNat)) T.toNat)

/-! ## Empirical probabilities (mc_sma_pricer.py lines 46–54,
`_probs_above_strikes`) -/

/-- `price_above`: fraction of settlement values `≥ strike`
(`(sample >= strike).mean()`); ties count as above.  The fraction of `0/1`
indicators is an exact rational. -/
def price_above {K : Type} [LinearOrder K] (sample : List K) (strike : K) : ℚ :=
  ((sample.countP fun x => decide (strike ≤ x) : ℕ) : ℚ) / (sample.length : ℚ)

/-- `price_below`: fraction of settlement values `≤ strike`
(`(sample <= strike).mean()`); ties count as below. -/
def price_below {K : Type} [LinearOrder K] (sample : List K) (strike : K) : ℚ :=
  ((sample.countP fun x => decide (x ≤ strike) : ℕ) : ℚ) / (sample.length : ℚ)

/-! ## Bid/ask construction (mc_sma_pricer.py lines 56–60,
garch_quote_engine.py lines 87–90) -/

/-- `bid_ask`: directional rounding to the nearest cent,
`bid = floor(min(p_low, p_high) * 100) / 100`,
`ask = ceil(max(p_low, p_high) * 100) / 100`. -/
def bid_ask (p_low p_high : ℚ) : ℚ × ℚ :=
  (((⌊min p_low p_high * 100⌋ : ℤ) : ℚ) / 100,
   ((⌈max p_low p_high * 100⌉ : ℤ) : ℚ) / 100)

/-! ## Batch quoting (mc_sma_pricer.py lines 63–87) -/

/-- The fields of `kalshi_contracts.ContractId` the pricer reads: the strike,
the side, and the market code it copies into the quote (`market_code()` is
string formatting, external to the core). -/
structure ContractId where
  strike : ℝ
  above : Bool
  market : String

/-- A produced quote record `{"market": ..., "bid": ..., "ask": ...}`. -/
structure Quote where
  market : String
  bid : ℚ
  ask : ℚ

/-- `quote_contracts`: simulate once per horizon `base_T - 5` and `base_T + 5`
(`horizons = (base_T - 5, base_T + 5)`, line 73 — no clamping), then for each
contract combine the two probabilities with `bid_ask`.  `zLo`/`zHi` are the
innovation matrices drawn for the two simulations. -/
noncomputable def quote_contracts (spot : ℝ) (omega alpha beta : ℝ)
    (contracts : List ContractId) (base_T : ℤ)
    (zLo zHi : List (List ℝ)) : Except String (List Quote) := do
  let sampleLo ← smaSample spot (base_T - 5) omega alpha beta zLo
  let sampleHi ← smaSample spot (base_T + 5) omega alpha beta zHi
  Except.ok (contracts.map fun c =>
    let p_lo := if c.above then price_above sampleLo c.strike
                else price_below sampleLo c.strike
    let p_hi := if c.above then price_above sampleHi c.strike
                else price_below sampleHi c.strike
    { market := c.market
      bid := (bid_ask p_lo p_hi).1
      ask := (bid_ask p_lo p_hi).2 })

/-- Modelled from the spec (§4.6 edge case, for refinement comparison only):
the same batch quoter but with the lower horizon clamped,
`max (base_T - 5) 0`, as the spec prescribes.  The source has no such clamp. -/
noncomputable def quote_contracts_clamped (spot : ℝ) (omega alpha beta : ℝ)
    (contracts : List ContractId) (base_T : ℤ)
    (zLo zHi : List (List ℝ)) : Except String (List Quote) := do
  let sampleLo ← smaSample spot (max (base_T - 5) 0) omega alpha beta zLo
  let sampleHi ← smaSample spot (base_T + 5) omega alpha beta zHi
  Except.ok (contracts.map fun c =>
    let p_lo := if c.above then price_above sampleLo c.strike
                else price_below sampleLo c.strike
    let p_hi := if c.above then price_above sampleHi c.strike
                else price_below sampleHi c.strike
    { market := c.market
      bid := (bid_ask p_lo p_hi).1
      ask := (bid_ask p_lo p_hi).2 })

/-! ## Volatility facade (`volatility.py`) -/

/-- The outcome of calling one volatility supplier: either it returns
`Optional[float]` or it raises. -/
def sourceGet (sup : Except String (Option ℚ)) : Option ℚ :=
  match sup with
  | Except.ok v => v
  | Except.error _ => none

/-- `VolatilityMetrics.effective_sigma` (volatility.py lines 121–144): build the
availability set from the 24h and 1h readings, then divide the weighted sum by
the total available weight; `0.0` when both are missing. -/
def effective_sigma (sig_24h sig_1h : Option ℚ) (w24h w1h : ℚ) : ℚ :=
  match sig_24h, sig_1h with
  | none, none => 0
  | some v24, none => (w24h * v24) / w24h
  | none, some v1 => (w1h * v1) / w1h
  | some v24, some v1 => (w24h * v24 + w1h * v1) / (w24h + w1h)

/-- The `for getter in (...)` loop body of `error_sigma` (volatility.py lines
153–157): return the first present value, else `0.0`. -/
def errorSigmaLoop : List (Except String (Option ℚ)) → ℚ
  | [] => 0
  | g :: rest =>
    match sourceGet g with
    | some v => v
    | none => errorSigmaLoop rest

/-- `VolatilityMetrics.error_sigma` (volatility.py lines 146–157): ordered
fallback over the 1-minute, 1-hour and 24-hour suppliers. -/
def error_sigma (s1m s1h s24h : Except String (Option ℚ)) : ℚ :=
  errorSigmaLoop [s1m, s1h, s24h]

/-! ## Analytic digital pricer (`black_scholes.py`) -/

/-- The standard-normal density kernel `exp (-t² / 2)` (unnormalised). -/
noncomputable def gaussKernel (t : ℝ) : ℝ := Real.exp (-t ^ 2 / 2)

/-- `_erf01(x) = 0.5 * (1 + erf(x / √2))` (black_scholes.py lines 29–31) is
exactly the standard normal CDF `Φ`; it is embedded in its integral form. -/
noncomputable def erf01 (x : ℝ) : ℝ :=
  (∫ t in Set.Iic x, gaussKernel t) / Real.sqrt (2 * Real.pi)

/-- `EPS = 1e-10`, the zero-volatility fallback (black_scholes.py line 26). -/
noncomputable def EPS : ℝ := 1 / 10 ^ 10

/-- `SQRT_ERR_DENOM = sqrt(24 * 60 * 20)` (black_scholes.py line 25). -/
noncomputable def SQRT_ERR_DENOM : ℝ := Real.sqrt (24 * 60 * 20)

/-- `bs_digital_24h` (black_scholes.py lines 34–75): digital call price with a
±3σ volatility-error band, returning `(mid, lower, upper)`. -/
noncomputable def bs_digital_24h (S0 K T sigma_24h : ℝ) : ℝ × ℝ × ℝ :=
  if T ≤ 0 then
    let payout : ℝ := if K < S0 then 1 else 0
    (payout, payout, payout)
  else
    let sigma_eff := max sigma_24h EPS
    let sqrtT := Real.sqrt T
    let d2 := (Real.log (S0 / K) - 1 / 2 * sigma_eff ^ 2 * T) / (sigma_eff * sqrtT)
    let sigma_err := sigma_eff / SQRT_ERR_DENOM
    let low_sig := max (sigma_eff - 3 * sigma_err) EPS
    let hi_sig := sigma_eff + 3 * sigma_err
    let d2_low := (Real.log (S0 / K) - 1 / 2 * low_sig ^ 2 * T) / (low_sig * sqrtT)
    let d2_high := (Real.log (S0 / K) - 1 / 2 * hi_sig ^ 2 * T) / (hi_sig * sqrtT)
    (erf01 d2, erf01 d2_low, erf01 d2_high)

/-! ## Theorems -/

/-- C1: one simulation step computes the next variance as
`omega + alpha·r² + beta·v` and floors it at `1e-10`; every variance used to
draw a log-return along a path is `≥ 1e-10`; and a fresh path starts with both
variance and squared return equal to the unconditional variance
`omega / (1 - alpha - beta)`. -/
theorem garch_variance_floor_and_init
    (omega alpha beta v r2 pr z p0 : ℝ) (s : SimState) (zs : List ℝ) :
    (garchStep omega alpha beta { price := pr, variance := v, sqRet := r2 } z).variance
        = max (omega + alpha * r2 + beta * v) (1 / 10 ^ 10)
    ∧ (1 : ℝ) / 10 ^ 10
        ≤ (garchStep omega alpha beta { price := pr, variance := v, sqRet := r2 } z).variance
    ∧ (∀ w ∈ pathVariances omega alpha beta s zs, (1 : ℝ) / 10 ^ 10 ≤ w)
    ∧ (initState omega alpha beta p0).variance = omega / (1 - alpha - beta)
    ∧ (initState omega alpha beta p0).sqRet = omega / (1 - alpha - beta) := by
  refine ⟨rfl, le_max_right _ _, ?_, rfl, rfl⟩
  induction zs generalizing s with
  | nil => intro w hw; simp [pathVariances] at hw
  | cons z' zs' ih =>
    intro w hw
    simp only [pathVariances, List.mem_cons] at hw
    rcases hw with h | h
    · rw [h]
      simp only [garchStep, nextVariance]
      exact le_max_right _ _
    · exact ih _ w h

/-- C2: the spread builder returns `bid = floor(min·100)/100` and
`ask = ceil(max·100)/100`, so `bid ≤ ask` always, and on equal inputs
`bid ≤ ask` with `ask - bid < 0.02`. -/
theorem bid_ask_spread (p_low p_high : ℚ)
    (hlo : 0 ≤ p_low ∧ p_low ≤ 1) (hhi : 0 ≤ p_high ∧ p_high ≤ 1) :
    (bid_ask p_low p_high).1 = ((⌊min p_low p_high * 100⌋ : ℤ) : ℚ) / 100
    ∧ (bid_ask p_low p_high).2 = ((⌈max p_low p_high * 100⌉ : ℤ) : ℚ) / 100
    ∧ (bid_ask p_low p_high).1 ≤ (bid_ask p_low p_high).2
    ∧ (bid_ask p_low p_low).1 ≤ (bid_ask p_low p_low).2
    ∧ (bid_ask p_low p_low).2 - (bid_ask p_low p_low).1 < 2 / 100 := by
  have hfloor_le_ceil : ∀ x y : ℚ, x ≤ y → ((⌊x⌋ : ℚ) / 100 ≤ ((⌈y⌉ : ℤ) : ℚ) / 100) := by
    intro x y hxy
    have h1 : ((⌊x⌋ : ℤ) : ℚ) ≤ x := Int.floor_le x
    have h2 : y ≤ ((⌈y⌉ : ℤ) : ℚ) := Int.le_ceil y
    have : ((⌊x⌋ : ℤ) : ℚ) ≤ ((⌈y⌉ : ℤ) : ℚ) := by linarith
    linarith
  refine ⟨rfl, rfl, ?_, ?_, ?_⟩
  · exact hfloor_le_ceil _ _ (mul_le_mul_of_nonneg_right min_le_max (by norm_num))
  · exact hfloor_le_ceil _ _ le_rfl
  · show ((⌈max p_low p_low * 100⌉ : ℤ) : ℚ) / 100 - ((⌊min p_low p_low * 100⌋ : ℤ) : ℚ) / 100
        < 2 / 100
    rw [min_self, max_self]
    have h := Int.ceil_le_floor_add_one (p_low * 100)
    have h' : ((⌈p_low * 100⌉ : ℤ) : ℚ) ≤ ((⌊p_low * 100⌋ : ℤ) : ℚ) + 1 := by
      exact_mod_cast h
    linarith

/-- C2 witness: the theorem instantiated at `p_low = 1/3`, `p_high = 1/2`. -/
theorem bid_ask_spread_witness :
    (((0 : ℚ) ≤ 1/3 ∧ (1/3 : ℚ) ≤ 1) ∧ ((0 : ℚ) ≤ 1/2 ∧ (1/2 : ℚ) ≤ 1))
    ∧ ((bid_ask (1/3) (1/2)).1 = ((⌊min (1/3 : ℚ) (1/2) * 100⌋ : ℤ) : ℚ) / 100
      ∧ (bid_ask (1/3) (1/2)).2 = ((⌈max (1/3 : ℚ) (1/2) * 100⌉ : ℤ) : ℚ) / 100
      ∧ (bid_ask (1/3) (1/2)).1 ≤ (bid_ask (1/3) (1/2)).2
      ∧ (bid_ask (1/3) (1/3)).1 ≤ (bid_ask (1/3) (1/3)).2
      ∧ (bid_ask (1/3) (1/3)).2 - (bid_ask (1/3) (1/3)).1 < 2 / 100) :=
  ⟨⟨⟨by norm_num, by norm_num⟩, ⟨by norm_num, by norm_num⟩⟩,
    bid_ask_spread (1/3) (1/2) ⟨by norm_num, by norm_num⟩ ⟨by norm_num, by norm_num⟩⟩

/-- C4 counterexample: the parameter set `omega = 1, alpha = 3/5, beta = 3/5`
has `alpha + beta = 1.2 ≥ 1`, yet loading it succeeds — nothing rejects it. -/
theorem load_garch_params_no_validation_cex :
    (1 : ℚ) ≤ 3/5 + 3/5
    ∧ load_garch_params { omega := 1, alpha := 3/5, beta := 3/5 }
        = Except.ok (1, 3/5, 3/5) :=
  ⟨by norm_num, rfl⟩

/-- C4 amended: no stationarity validation exists.  `load_garch_params` returns
any parameter triple unchanged; for `alpha + beta > 1` (with `omega > 0`) the
unconditional variance is negative, yet the variance update still floors at
`1e-10`, so simulation proceeds rather than failing with a configuration
error. -/
theorem load_garch_params_accepts_nonstationary (g : GarchJson)
    (homega : 0 < g.omega) (hs : 1 < g.alpha + g.beta) :
    load_garch_params g = Except.ok (g.omega, g.alpha, g.beta)
    ∧ uncondVar g.omega g.alpha g.beta < 0
    ∧ ∀ v r2 : ℚ, VAR_EPS ≤ nextVariance g.omega g.alpha g.beta v r2 := by
  refine ⟨rfl, ?_, ?_⟩
  · unfold uncondVar
    apply div_neg_of_pos_of_neg homega
    linarith
  · intro v r2
    exact le_max_right _ _

/-- C4 witness: the amended theorem at `omega = 1, alpha = 3/5, beta = 3/5`. -/
theorem load_garch_params_accepts_nonstationary_witness :
    ((0 : ℚ) < 1 ∧ (1 : ℚ) < 3/5 + 3/5)
    ∧ (load_garch_params { omega := 1, alpha := 3/5, beta := 3/5 }
          = Except.ok (1, 3/5, 3/5)
      ∧ uncondVar (1 : ℚ) (3/5) (3/5) < 0
      ∧ ∀ v r2 : ℚ, VAR_EPS ≤ nextVariance (1 : ℚ) (3/5) (3/5) v r2) :=
  ⟨⟨by norm_num, by norm_num⟩,
    load_garch_params_accepts_nonstationary { omega := 1, alpha := 3/5, beta := 3/5 }
      (by norm_num) (by norm_num)⟩

/-- C7: `effective_sigma` at the default weights `(0.8, 0.2)`: with both
sources present it is `0.8·σ24h + 0.2·σ1h`; with only `σ1h` present its weight
is renormalised so the result is exactly `σ1h`; with both absent it is `0`. -/
theorem effective_sigma_blend (v24 v1 : ℚ) :
    effective_sigma (some v24) (some v1) (8/10) (2/10) = (8/10) * v24 + (2/10) * v1
    ∧ effective_sigma none (some v1) (8/10) (2/10) = v1
    ∧ effective_sigma none none (8/10) (2/10) = 0 := by
  refine ⟨?_, ?_, rfl⟩
  · show ((8/10 : ℚ) * v24 + (2/10) * v1) / ((8/10) + (2/10)) = (8/10) * v24 + (2/10) * v1
    norm_num
  · show ((2/10 : ℚ) * v1) / (2/10) = v1
    rw [mul_comm, mul_div_assoc]
    norm_num

/-- C8: `error_sigma` is the ordered fallback chain — the 1-minute σ if
present, else the 1-hour σ, else the 24-hour σ, else `0` — and a supplier that
raises is treated as absent (`sourceGet` maps it to `none`; the loop is total,
so no exception reaches the caller). -/
theorem error_sigma_fallback_chain (s1m s1h s24h : Except String (Option ℚ)) :
    error_sigma s1m s1h s24h
      = (sourceGet s1m).getD ((sourceGet s1h).getD ((sourceGet s24h).getD 0))
    ∧ ∀ e : String, sourceGet (Except.error e) = none := by
  constructor
  · cases h1 : sourceGet s1m <;> cases h2 : sourceGet s1h <;> cases h3 : sourceGet s24h <;>
      simp [error_sigma, errorSigmaLoop, h1, h2, h3]
  · intro e
    rfl

/-- Counting helper for C10: over any sample, the paths `≥ K` plus the paths
`≤ K` are the whole sample plus the ties `= K` counted once more. -/
theorem countP_ge_add_countP_le (sample : List ℚ) (K : ℚ) :
    (sample.countP fun x => decide (K ≤ x)) + (sample.countP fun x => decide (x ≤ K))
      = sample.length + sample.countP fun x => decide (x = K) := by
  induction sample with
  | nil => rfl
  | cons a l ih =>
    simp only [List.countP_cons, List.length_cons]
    rcases lt_trichotomy a K with h | h | h
    · have h1 : ¬ K ≤ a := not_le.mpr h
      have h2 : a ≤ K := h.le
      have h3 : ¬ a = K := h.ne
      simp only [h1, h2, h3, decide_eq_true_eq, if_true, if_false, decide_True, decide_False]
      omega
    · subst h
      simp only [le_refl, decide_True, if_true]
      omega
    · have h1 : K ≤ a := h.le
      have h2 : ¬ a ≤ K := not_le.mpr h
      have h3 : ¬ a = K := h.ne'
      simp only [h1, h2, h3, decide_eq_true_eq, if_true, if_false, decide_True, decide_False]
      omega

/-- C10: Above and Below both count ties inclusively, so for a non-empty
sample `price_above + price_below = 1 + (fraction of ties)`, which is `≥ 1` —
the two probabilities at the same strike are not complementary under ties. -/
theorem price_above_below_tie_sum (sample : List ℚ) (K : ℚ) (h : sample ≠ []) :
    price_above sample K + price_below sample K
      = 1 + ((sample.countP fun x => decide (x = K) : ℕ) : ℚ) / (sample.length : ℚ)
    ∧ 1 ≤ price_above sample K + price_below sample K := by
  have hn : 0 < sample.length := List.length_pos.mpr h
  have hn' : ((sample.length : ℕ) : ℚ) ≠ 0 := by
    exact_mod_cast hn.ne'
  have hsum := countP_ge_add_countP_le sample K
  have key : price_above sample K + price_below sample K
      = 1 + ((sample.countP fun x => decide (x = K) : ℕ) : ℚ) / (sample.length : ℚ) := by
    unfold price_above price_below
    rw [div_add_div_same]
    have hc : ((sample.countP fun x => decide (K ≤ x) : ℕ) : ℚ)
          + ((sample.countP fun x => decide (x ≤ K) : ℕ) : ℚ)
        = ((sample.length : ℕ) : ℚ) + ((sample.countP fun x => decide (x = K) : ℕ) : ℚ) := by
      exact_mod_cast hsum
    rw [hc, add_div, div_self hn']
  refine ⟨key, ?_⟩
  rw [key]
  have hpos : 0 ≤ ((sample.countP fun x => decide (x = K) : ℕ) : ℚ) / (sample.length : ℚ) := by
    positivity
  linarith

/-- C10 witness: the theorem at `sample = [1, 2]`, `K = 1` (one tie). -/
theorem price_above_below_tie_sum_witness :
    ([(1 : ℚ), 2] ≠ [])
    ∧ (price_above [(1 : ℚ), 2] 1 + price_below [(1 : ℚ), 2] 1
        = 1 + (([(1 : ℚ), 2].countP fun x => decide (x = 1) : ℕ) : ℚ)
            / (([(1 : ℚ), 2].length : ℕ) : ℚ)
      ∧ 1 ≤ price_above [(1 : ℚ), 2] 1 + price_below [(1 : ℚ), 2] 1) :=
  ⟨by decide, price_above_below_tie_sum [(1 : ℚ), 2] 1 (by decide)⟩

/-- C6: for a simulated trajectory of length `T + 1`, the settlement statistic
is the arithmetic mean of the last `min(60, T + 1)` ticks; and for `T = 0`
(no innovations) it equals the initial price. -/
theorem settlement_window_mean (ps : List ℝ) (T : ℕ) (h : ps.length = T + 1)
    (omega alpha beta init : ℝ) :
    settlementStat ps T = listMean (lastN (min 60 (T + 1)) ps)
    ∧ settlementStat (simulatePath omega alpha beta init []) 0 = init := by
  constructor
  · unfold settlementStat lastN
    have htake : ps.take (T + 1) = ps := List.take_of_length_le (by omega)
    rw [htake]
    have hidx : ps.length - min 60 (T + 1) = T - 59 := by omega
    rw [hidx]
  · have hpath : simulatePath omega alpha beta init [] = [init] := rfl
    rw [hpath]
    unfold settlementStat listMean
    norm_num

/-- C6 witness: the theorem at `ps = [1, 2]`, `T = 1` (window covers both
ticks), with a trivial simulator instance for the `T = 0` part. -/
theorem settlement_window_mean_witness :
    ([(1 : ℝ), 2].length = 1 + 1)
    ∧ (settlementStat [(1 : ℝ), 2] 1 = listMean (lastN (min 60 (1 + 1)) [(1 : ℝ), 2])
      ∧ settlementStat (simulatePath 1 0 0 5 []) 0 = 5) :=
  ⟨rfl, settlement_window_mean [(1 : ℝ), 2] 1 rfl 1 0 0 5⟩

/-- C5 counterexample: at `base_T = 3` the batch quoter does not behave like
the spec's clamped variant — the lower horizon `3 - 5 = -2` is passed through
and the simulation is rejected, while clamping to 0 would have produced a
(successful) quote batch. -/
theorem quote_contracts_no_clamp_cex :
    quote_contracts 1 (1/100) (1/10) (1/10) [] 3 [[0]] [[0]]
      ≠ quote_contracts_clamped 1 (1/100) (1/10) (1/10) [] 3 [[0]] [[0]] := by
  have h1 : quote_contracts 1 (1/100) (1/10) (1/10) [] 3 [[0]] [[0]]
      = Except.error "negative horizon" := by
    unfold quote_contracts smaSample
    rw [if_pos (by decide : (3 : ℤ) - 5 < 0)]
    rfl
  have h2 : quote_contracts_clamped 1 (1/100) (1/10) (1/10) [] 3 [[0]] [[0]]
      = Except.ok [] := by
    unfold quote_contracts_clamped smaSample
    rw [if_neg (by decide : ¬ (max ((3 : ℤ) - 5) 0 < 0)),
      if_neg (by decide : ¬ ((3 : ℤ) + 5 < 0))]
    rfl
  rw [h1, h2]
  exact fun hx => Except.noConfusion hx

/-- C5 amended: the lower horizon is not clamped — `quote_contracts` passes
`base_T - 5` through unchanged, and whenever `base_T < 5` the whole batch
fails with the simulator's negative-horizon error instead of quoting at an
immediate-settlement horizon of 0 (for `base_T = 5` the lower horizon is
already 0 and no clamping is involved). -/
theorem quote_contracts_negative_horizon_error (spot omega alpha beta : ℝ)
    (cs : List ContractId) (base_T : ℤ) (zLo zHi : List (List ℝ))
    (h : base_T < 5) :
    quote_contracts spot omega alpha beta cs base_T zLo zHi
      = Except.error "negative horizon" := by
  unfold quote_contracts smaSample
  rw [if_pos (by omega : base_T - 5 < 0)]
  rfl

/-- C5 witness: the amended theorem at `base_T = 3`. -/
theorem quote_contracts_negative_horizon_error_witness :
    ((3 : ℤ) < 5)
    ∧ quote_contracts 1 (1/100) (1/10) (1/10) [] 3 [[0]] [[0]]
        = Except.error "negative horizon" :=
  ⟨by decide,
    quote_contracts_negative_horizon_error 1 (1/100) (1/10) (1/10) [] 3 [[0]] [[0]]
      (by decide)⟩

/-! ### Facts about the embedded normal CDF, used for the analytic pricer -/

theorem gaussKernel_eq (t : ℝ) : gaussKernel t = Real.exp (-(1/2) * t ^ 2) := by
  unfold gaussKernel
  congr 1
  ring

theorem gaussKernel_continuous : Continuous gaussKernel := by
  unfold gaussKernel
  fun_prop

theorem gaussKernel_integrable : MeasureTheory.Integrable gaussKernel := by
  have h := integrable_exp_neg_mul_sq (show (0:ℝ) < 1/2 by norm_num)
  have he : (fun x : ℝ => Real.exp (-(1/2 : ℝ) * x ^ 2)) = gaussKernel := by
    funext t
    rw [gaussKernel_eq]
  rwa [he] at h

theorem gaussKernel_total : ∫ t : ℝ, gaussKernel t = Real.sqrt (2 * Real.pi) := by
  have h := integral_gaussian (1/2)
  have he : (fun x : ℝ => Real.exp (-(1/2 : ℝ) * x ^ 2)) = gaussKernel := by
    funext t
    rw [gaussKernel_eq]
  rw [he] at h
  have hd : Real.pi / (1/2) = 2 * Real.pi := by
    rw [div_eq_mul_inv, one_div, inv_inv, mul_comm]
  rw [h, hd]

theorem gaussKernel_Iic_zero :
    ∫ t in Set.Iic (0 : ℝ), gaussKernel t = Real.sqrt (2 * Real.pi) / 2 := by
  have heven : (fun t : ℝ => gaussKernel (-t)) = gaussKernel := by
    funext t
    unfold gaussKernel
    rw [neg_sq]
  have h := integral_comp_neg_Iic (0 : ℝ) gaussKernel
  rw [heven, neg_zero] at h
  have hL : MeasureTheory.IntegrableOn gaussKernel (Set.Iic (0:ℝ)) :=
    gaussKernel_integrable.integrableOn
  have hR : MeasureTheory.IntegrableOn gaussKernel (Set.Ioi (0:ℝ)) :=
    gaussKernel_integrable.integrableOn
  have hsplit := intervalIntegral.integral_Iic_add_Ioi hL hR
  rw [gaussKernel_total] at hsplit
  linarith

theorem erf01_zero : erf01 0 = 1/2 := by
  unfold erf01
  rw [gaussKernel_Iic_zero]
  have h : Real.sqrt (2 * Real.pi) ≠ 0 :=
    ne_of_gt (Real.sqrt_pos.mpr (by positivity))
  field_simp
  ring

theorem gaussKernel_intervalIntegrable (a b : ℝ) :
    IntervalIntegrable gaussKernel MeasureTheory.volume a b :=
  gaussKernel_continuous.intervalIntegrable a b

theorem erf01_sub (a b : ℝ) :
    erf01 b - erf01 a = (∫ t in a..b, gaussKernel t) / Real.sqrt (2 * Real.pi) := by
  unfold erf01
  rw [div_sub_div_same]
  congr 1
  exact intervalIntegral.integral_Iic_sub_Iic
    gaussKernel_integrable.integrableOn gaussKernel_integrable.integrableOn

theorem gaussKernel_le_one (t : ℝ) : gaussKernel t ≤ 1 := by
  unfold gaussKernel
  rw [show (1:ℝ) = Real.exp 0 from Real.exp_zero.symm]
  apply Real.exp_le_exp.mpr
  nlinarith [sq_nonneg t]

theorem gauss_interval_le (a : ℝ) (ha : 0 ≤ a) :
    ∫ t in (-a)..(0:ℝ), gaussKernel t ≤ a := by
  have hone : IntervalIntegrable (fun _ : ℝ => (1:ℝ)) MeasureTheory.volume (-a) 0 :=
    intervalIntegrable_const
  have h := intervalIntegral.integral_mono_on (by linarith : -a ≤ (0:ℝ))
    (gaussKernel_intervalIntegrable (-a) 0) hone (fun x _ => gaussKernel_le_one x)
  rw [intervalIntegral.integral_const] at h
  simpa using h

theorem gauss_interval_ge (a : ℝ) (ha : 0 ≤ a) :
    a * Real.exp (-a ^ 2 / 2) ≤ ∫ t in (-a)..(0:ℝ), gaussKernel t := by
  have hconst : IntervalIntegrable (fun _ : ℝ => Real.exp (-a ^ 2 / 2))
      MeasureTheory.volume (-a) 0 := intervalIntegrable_const
  have hmono : ∀ x ∈ Set.Icc (-a) (0:ℝ),
      (fun _ : ℝ => Real.exp (-a ^ 2 / 2)) x ≤ gaussKernel x := by
    intro x hx
    obtain ⟨h1, h2⟩ := hx
    unfold gaussKernel
    apply Real.exp_le_exp.mpr
    have h4 : (0:ℝ) ≤ a + x := by linarith
    have h5 : (0:ℝ) ≤ a - x := by linarith
    nlinarith [mul_nonneg h4 h5]
  have h := intervalIntegral.integral_mono_on (by linarith : -a ≤ (0:ℝ))
    hconst (gaussKernel_intervalIntegrable (-a) 0) hmono
  rw [intervalIntegral.integral_const] at h
  simpa using h

theorem gauss_interval_pos (a : ℝ) (ha : 0 < a) :
    0 < ∫ t in (-a)..(0:ℝ), gaussKernel t :=
  intervalIntegral.intervalIntegral_pos_of_pos (gaussKernel_intervalIntegrable (-a) 0)
    (fun x => Real.exp_pos _) (by linarith)

theorem erf01_neg_lt_half (a : ℝ) (ha : 0 < a) : erf01 (-a) < 1/2 := by
  have h := erf01_sub (-a) 0
  rw [erf01_zero] at h
  have hpos := gauss_interval_pos a ha
  have hs : 0 < Real.sqrt (2 * Real.pi) := Real.sqrt_pos.mpr (by positivity)
  have hq : 0 < (∫ t in (-a)..(0:ℝ), gaussKernel t) / Real.sqrt (2 * Real.pi) :=
    div_pos hpos hs
  linarith

theorem half_sub_erf01_neg_le (a : ℝ) (ha : 0 ≤ a) :
    1/2 - erf01 (-a) ≤ a / Real.sqrt (2 * Real.pi) := by
  have h := erf01_sub (-a) 0
  rw [erf01_zero] at h
  have hle := gauss_interval_le a ha
  have hs : 0 < Real.sqrt (2 * Real.pi) := Real.sqrt_pos.mpr (by positivity)
  have hq : (∫ t in (-a)..(0:ℝ), gaussKernel t) / Real.sqrt (2 * Real.pi)
      ≤ a / Real.sqrt (2 * Real.pi) := by gcongr
  linarith

theorem half_sub_erf01_neg_ge (a : ℝ) (ha : 0 ≤ a) :
    a * Real.exp (-a ^ 2 / 2) / Real.sqrt (2 * Real.pi) ≤ 1/2 - erf01 (-a) := by
  have h := erf01_sub (-a) 0
  rw [erf01_zero] at h
  have hge := gauss_interval_ge a ha
  have hs : 0 < Real.sqrt (2 * Real.pi) := Real.sqrt_pos.mpr (by positivity)
  have hq : a * Real.exp (-a ^ 2 / 2) / Real.sqrt (2 * Real.pi)
      ≤ (∫ t in (-a)..(0:ℝ), gaussKernel t) / Real.sqrt (2 * Real.pi) := by gcongr
  linarith

/-- C3: with `T ≤ 0` the analytic digital pricer settles immediately:
`(1,1,1)` when `S0 > K`, `(0,0,0)` otherwise; in particular the boundary
`S0 = K` yields `(0,0,0)`. -/
theorem bs_digital_expired (S0 K T sigma : ℝ)
    (hS : 0 < S0) (hK : 0 < K) (hsigma : 0 ≤ sigma) (hT : T ≤ 0) :
    (bs_digital_24h S0 K T sigma = if K < S0 then (1, 1, 1) else (0, 0, 0))
    ∧ bs_digital_24h K K T sigma = (0, 0, 0) := by
  constructor
  · unfold bs_digital_24h
    rw [if_pos hT]
    by_cases h : K < S0 <;> simp [h]
  · unfold bs_digital_24h
    rw [if_pos hT]
    simp [lt_irrefl]

/-- C3 witness: `S0 = 2 > K = 1` and the boundary `S0 = K = 1`, at `T = 0`. -/
theorem bs_digital_expired_witness :
    ((0:ℝ) < 2 ∧ (0:ℝ) < 1 ∧ (0:ℝ) ≤ 0 ∧ (0:ℝ) ≤ 0)
    ∧ ((bs_digital_24h 2 1 0 0 = if (1:ℝ) < 2 then (1, 1, 1) else (0, 0, 0))
      ∧ bs_digital_24h 1 1 0 0 = (0, 0, 0)) :=
  ⟨⟨by norm_num, by norm_num, le_refl 0, le_refl 0⟩,
    bs_digital_expired 2 1 0 0 (by norm_num) (by norm_num) (le_refl 0) (le_refl 0)⟩

/-- C9 counterexample: at the money with `S = K = 100`, `T = 1`, `σ = 3` the
mid is `Φ(-3/2) < 2/5`, i.e. more than `0.1` below `1/2` — the at-the-money
mid is not ≈ 0.5 for all positive `T`, `σ`. -/
theorem bs_digital_atm_not_half_cex : (bs_digital_24h 100 100 1 3).1 < 2/5 := by
  have hred : (bs_digital_24h 100 100 1 3).1 = erf01 (-(3/2)) := by
    unfold bs_digital_24h
    rw [if_neg (by norm_num : ¬ (1:ℝ) ≤ 0)]
    show erf01 ((Real.log ((100:ℝ) / 100) - 1/2 * (max (3:ℝ) EPS) ^ 2 * 1)
        / (max (3:ℝ) EPS * Real.sqrt 1)) = _
    have hmax : max (3:ℝ) EPS = 3 := max_eq_left (by unfold EPS; norm_num)
    rw [hmax, Real.sqrt_one, div_self (by norm_num : (100:ℝ) ≠ 0), Real.log_one]
    norm_num
  rw [hred]
  have hband := half_sub_erf01_neg_ge (3/2) (by norm_num)
  have hkey : (1:ℝ)/10 < 3/2 * Real.exp (-(3/2:ℝ) ^ 2 / 2) / Real.sqrt (2 * Real.pi) := by
    have harg : (-(3/2:ℝ) ^ 2 / 2) = (-(9/8) : ℝ) := by norm_num
    rw [harg]
    have hexp18 : Real.exp (1/8 : ℝ) ≤ 8/7 := by
      have h := Real.add_one_le_exp (-(1/8) : ℝ)
      rw [Real.exp_neg] at h
      have hp : 0 < Real.exp (1/8 : ℝ) := Real.exp_pos _
      have hinv : (Real.exp (1/8 : ℝ))⁻¹ * Real.exp (1/8 : ℝ) = 1 :=
        inv_mul_cancel₀ (ne_of_gt hp)
      nlinarith
    have hexp98 : Real.exp (9/8 : ℝ) < 22/7 := by
      have he : Real.exp (9/8 : ℝ) = Real.exp 1 * Real.exp (1/8 : ℝ) := by
        rw [← Real.exp_add]
        norm_num
      rw [he]
      have h1 : Real.exp 1 < 2.7182818286 := Real.exp_one_lt_d9
      have h2 : 0 < Real.exp (1/8 : ℝ) := Real.exp_pos _
      nlinarith
    have hexpneg : (7/22 : ℝ) < Real.exp (-(9/8) : ℝ) := by
      rw [Real.exp_neg]
      have hp : 0 < Real.exp (9/8 : ℝ) := Real.exp_pos _
      have hip : 0 < (Real.exp (9/8 : ℝ))⁻¹ := inv_pos.mpr hp
      have hinv : (Real.exp (9/8 : ℝ))⁻¹ * Real.exp (9/8 : ℝ) = 1 :=
        inv_mul_cancel₀ (ne_of_gt hp)
      nlinarith
    have hsqrt : Real.sqrt (2 * Real.pi) < 2.51 := by
      rw [Real.sqrt_lt' (by norm_num : (0:ℝ) < 2.51)]
      nlinarith [Real.pi_lt_d6]
    have hs0 : 0 < Real.sqrt (2 * Real.pi) := Real.sqrt_pos.mpr (by positivity)
    rw [lt_div_iff₀ hs0]
    linarith
  linarith

/-- C9 amended: at the money the mid is `Φ(-σ_eff·√T/2)` where
`σ_eff = max σ EPS`: it is strictly below `1/2` for every `T > 0`, `σ > 0`,
and within `σ_eff·√T / (2·√(2π))` of `1/2` — so it is ≈ 0.5 only in the limit
`σ·√T → 0`, not for all positive `T`, `σ`. -/
theorem bs_digital_atm_mid (S T sigma : ℝ)
    (hS : 0 < S) (hT : 0 < T) (hsig : 0 < sigma) :
    (bs_digital_24h S S T sigma).1 = erf01 (-(max sigma EPS * Real.sqrt T / 2))
    ∧ (bs_digital_24h S S T sigma).1 < 1/2
    ∧ 1/2 - (bs_digital_24h S S T sigma).1
        ≤ max sigma EPS * Real.sqrt T / (2 * Real.sqrt (2 * Real.pi)) := by
  have hsigeff : 0 < max sigma EPS := lt_max_of_lt_left hsig
  have hsqrtT : 0 < Real.sqrt T := Real.sqrt_pos.mpr hT
  have ha : 0 < max sigma EPS * Real.sqrt T / 2 := by positivity
  have hfst : (bs_digital_24h S S T sigma).1
      = erf01 (-(max sigma EPS * Real.sqrt T / 2)) := by
    unfold bs_digital_24h
    rw [if_neg (not_le.mpr hT)]
    show erf01 ((Real.log (S / S) - 1/2 * (max sigma EPS) ^ 2 * T)
        / (max sigma EPS * Real.sqrt T)) = _
    rw [div_self (ne_of_gt hS), Real.log_one]
    congr 1
    set r := Real.sqrt T with hrdef
    have hTs : T = r * r := by
      rw [hrdef]
      exact (Real.mul_self_sqrt hT.le).symm
    rw [hTs]
    have hr : r ≠ 0 := ne_of_gt hsqrtT
    have hm : max sigma EPS ≠ 0 := ne_of_gt hsigeff
    field_simp
    ring
  refine ⟨hfst, ?_, ?_⟩
  · rw [hfst]
    exact erf01_neg_lt_half _ ha
  · rw [hfst]
    calc 1/2 - erf01 (-(max sigma EPS * Real.sqrt T / 2))
        ≤ (max sigma EPS * Real.sqrt T / 2) / Real.sqrt (2 * Real.pi) :=
          half_sub_erf01_neg_le _ ha.le
      _ = max sigma EPS * Real.sqrt T / (2 * Real.sqrt (2 * Real.pi)) := by
          rw [div_div]

/-- C9 witness: the amended theorem at `S = 1`, `T = 1`, `σ = 1`. -/
theorem bs_digital_atm_mid_witness :
    ((0:ℝ) < 1 ∧ (0:ℝ) < 1 ∧ (0:ℝ) < 1)
    ∧ ((bs_digital_24h 1 1 1 1).1 = erf01 (-(max 1 EPS * Real.sqrt 1 / 2))
      ∧ (bs_digital_24h 1 1 1 1).1 < 1/2
      ∧ 1/2 - (bs_digital_24h 1 1 1 1).1
          ≤ max 1 EPS * Real.sqrt 1 / (2 * Real.sqrt (2 * Real.pi))) :=
  ⟨⟨zero_lt_one, zero_lt_one, zero_lt_one⟩,
    bs_digital_atm_mid 1 1 1 zero_lt_one zero_lt_one zero_lt_one⟩

end BtcBot
